import Mathlib

/-!
Verification of the krackel pattern-recognition and musical AI engine.

Shallow embedding of the `PatternAIEngine` class (pattern detection, spam
filtering, rhythm tracking, tempo estimation, style model, persistence) and
proofs about the claims of the specification.

Modelling conventions:
* JavaScript numbers are modelled as exact rationals (`ℚ`).  Every numeric
  literal of the source (0.5, 0.6, 1.2, ...) is an exactly representable
  rational, and no claim here hinges on binary floating-point rounding.
  The one genuine IEEE artefact the source can produce is `NaN` from `0/0`
  (division of two zero counts); where that is reachable it is modelled
  explicitly with `Option` (`none` = `NaN`), see `calculatePatternQuality`.
* All calls to `Date.now()` that occur inside one analysis pass are modelled
  as a single instant `now : ℚ` (milliseconds).  Consecutive calls within one
  synchronous pass return the same clock reading up to sub-pass drift; the
  one-instant model is the idealisation of that.
* JavaScript `Map`s (insertion ordered, keyed by strings such as
  `pattern + "_" + length`) are modelled as association lists in insertion
  order.  The string keys of the source are injective images of the
  structured keys used here (a pattern's stored `length` always equals the
  length of its content, which makes `content_length` collision-free), so
  the structured keys are a faithful replacement.
* `Math.random`-driven output (the suggestion generator) produces advisory
  data that is returned to the caller but never written back into the engine
  state; it is therefore omitted from the state-transition model.
-/

namespace PatternAI

/-! ## Association lists with JavaScript `Map` semantics -/

/-- First-match lookup, as `Map.prototype.get`. -/
def lookupA {κ ν : Type} [DecidableEq κ] : List (κ × ν) → κ → Option ν
  | [], _ => none
  | kv :: rest, k => if kv.1 = k then some kv.2 else lookupA rest k

/-- Source `Map.prototype.set`: overwrite in place if the key is present (keeping its
position, as JS maps keep insertion order), else append. -/
def setA {κ ν : Type} [DecidableEq κ] : List (κ × ν) → κ → ν → List (κ × ν)
  | [], k, v => [(k, v)]
  | kv :: rest, k, v => if kv.1 = k then (k, v) :: rest else kv :: setA rest k v

/-- Stable insertion used by `stableSort`. -/
def insertStable {α : Type} (le : α → α → Bool) (x : α) : List α → List α
  | [] => [x]
  | y :: ys => if le y x then y :: insertStable le x ys else x :: y :: ys

/-- Stable sort (insertion sort).  Models `Array.prototype.sort`, which
ECMA-262 requires to be stable, for the comparison functions used by the
source (all of the form `(a, b) => b.field - a.field`). -/
def stableSort {α : Type} (le : α → α → Bool) (l : List α) : List α :=
  l.foldl (fun acc x => insertStable le x acc) []

/-- Increment a counter keyed by `k` (plain-object / `Map` counting as in
`charCounts[char] = (charCounts[char] || 0) + 1`), creating the key at the
end in first-appearance order. -/
def bump {κ : Type} [DecidableEq κ] (acc : List (κ × ℕ)) (k : κ) : List (κ × ℕ) :=
  match lookupA acc k with
  | some c => setA acc k (c + 1)
  | none => acc ++ [(k, 1)]

/-- Consecutive differences: `intervals.push(a[i] - a[i-1])`. -/
def diffs (l : List ℚ) : List ℚ :=
  (l.zip l.tail).map (fun ab => ab.2 - ab.1)

/-- Source `array.slice(-n)`: the last `n` elements. -/
def lastN {α : Type} (n : ℕ) (l : List α) : List α :=
  l.drop (l.length - n)

/-- Source `unit.repeat(n)` on strings-as-lists. -/
def repeatN (u : List Char) (n : ℕ) : List Char :=
  (List.replicate n u).flatten

/-! ## Data model -/

/-- The six note-duration categories of `noteValues` plus the `rest`
category produced by `classifyInterval` for long gaps. -/
inductive NoteValue : Type
  | whole
  | half
  | quarter
  | eighth
  | sixteenth
  | thirtysecond
  | rest
deriving DecidableEq

/-- Source `userStyle.patternComplexity`. -/
inductive Complexity : Type
  | simple
  | medium
  | complex
deriving DecidableEq

/-- Categories assigned by `categorizePattern`. -/
inductive PatternCategory : Type
  | simple
  | complex
  | repetitive
  | alternating
  | varied
deriving DecidableEq

/-- One keystroke record as pushed by `recordKeystroke`. -/
structure Keystroke : Type where
  char : Char
  timestamp : ℚ
  musicalNote : Option String
  timeSinceLastKey : ℚ
  beatPosition : ℚ
deriving DecidableEq

/-- Result of `analyzePatternRhythm` stored in a detected pattern. -/
structure RhythmInfo : Type where
  rhythm : List NoteValue
  confidence : ℚ
deriving DecidableEq

/-- One entry of the `detectedPatterns` registry. -/
structure DetectedPattern : Type where
  pattern : List Char
  length : ℕ
  frequency : ℕ
  score : ℚ
  lastSeen : ℚ
  rhythmInfo : Option RhythmInfo
  qualityScore : ℚ
  firstSeen : ℚ
deriving DecidableEq

/-- One entry of the `rhythmPatterns` registry. -/
structure RhythmEntry : Type where
  pattern : List NoteValue
  frequency : ℕ
  averageInterval : ℚ
  lastSeen : ℚ
deriving DecidableEq

/-- One entry of the `learnedPatterns` list. -/
structure LearnedPattern : Type where
  pattern : List Char
  learnedAt : ℚ
  strength : ℚ
  category : PatternCategory
deriving DecidableEq

/-- One entry of the `hierarchicalPatterns` map (`findNestedPatterns`). -/
structure HierarchicalEntry : Type where
  parent : DetectedPattern
  child : DetectedPattern
  nestingScore : ℚ
  relationship : String
deriving DecidableEq

/-- The `userStyle` object. -/
structure UserStyle : Type where
  preferredPatterns : List DetectedPattern
  averageTempo : ℚ
  rhythmPreference : NoteValue
  patternComplexity : Complexity
  musicalScale : String
deriving DecidableEq

/-- Key of the detected-pattern registry: the structured form of the source's
`pattern + "_" + patternLength` string (injective because a stored entry's
`length` always equals `pattern.length`). -/
abbrev PatternKey : Type := List Char × ℕ

abbrev Registry : Type := List (PatternKey × DetectedPattern)

/-- The mutable state of `PatternAIEngine`.  The constructor fields
`currentBeat` and `beatHistory` are initialised but never read or written
afterwards and are omitted; `musicalEngine` is an external collaborator whose
only contribution (`getCurrentBeatPosition`) enters through `KeyInput`. -/
structure EngineState : Type where
  keystrokeHistory : List Keystroke
  detectedPatterns : Registry
  hierarchicalPatterns : List ((List Char × List Char) × HierarchicalEntry)
  learnedPatterns : List LearnedPattern
  tempoHistory : List ℚ
  rhythmPatterns : List (List NoteValue × RhythmEntry)
  userStyle : UserStyle
deriving DecidableEq

/-- External data accompanying one `recordKeystroke` call: the arguments
`char`, `timestamp`, `musicalNote`, the collaborator-supplied beat position,
and the `Date.now()` reading of the pass. -/
structure KeyInput : Type where
  char : Char
  timestamp : ℚ
  musicalNote : Option String
  beatPos : ℚ
  now : ℚ
deriving DecidableEq

/-- Source `this.patternScoreThreshold` (source default 1.5). -/
def patternScoreThreshold : ℚ := 3/2

/-- Source `this.minPatternLength`. -/
def minPatternLength : ℕ := 2

/-- Source `this.maxPatternLength`. -/
def maxPatternLength : ℕ := 64

/-! ## Spam / quality filter -/

/-- Source `new Set(pattern).size`. -/
def distinctCount (p : List Char) : ℕ := p.dedup.length

/-- Source `Math.max(...Object.values(charCounts))` for the character counts of
`p` (0 for the empty sequence, which the engine never passes). -/
def maxCharFreq (p : List Char) : ℕ :=
  (p.dedup.map fun c => p.count c).foldl max 0

/-- Source `pattern.split('').every(char => char === firstChar)`. -/
def allSameChar (p : List Char) : Bool :=
  match p with
  | [] => true
  | c :: rest => rest.all (· == c)

/-- Source `isSpamPattern`: single repeated character (length > 2), simple
two-character alternation (length > 4), or one character occupying more than
60% of the sequence. -/
def isSpamPattern (p : List Char) : Bool :=
  (decide (2 < p.length) && allSameChar p) ||
  (decide (4 < p.length) && decide (p.length % 2 = 0) &&
    (p == repeatN (p.take 2) (p.length / 2)) && decide (distinctCount p ≤ 2)) ||
  decide ((3:ℚ)/5 < (maxCharFreq p : ℚ) / (p.length : ℚ))

/-- The three keyboard rows of `hasMusicalCoherence`, in object-literal
order. -/
def keyboardRowList : List (List Char × ℕ) :=
  [("qwertyuiop".toList, 0), ("asdfghjkl".toList, 1), ("zxcvbnm".toList, 2)]

/-- Row indices of the characters of `p` (characters on no row are skipped,
as in the source's `break`-on-first-row loop). -/
def rowPositions (p : List Char) : List ℕ :=
  p.foldl (fun acc c =>
    match keyboardRowList.find? (fun row => row.1.contains c) with
    | some row => acc ++ [row.2]
    | none => acc) []

/-- Source `hasMusicalCoherence`: the pattern touches at most two keyboard rows. -/
def hasMusicalCoherence (p : List Char) : Bool :=
  decide ((rowPositions p).dedup.length ≤ 2)

/-- Source `hasExcessiveInternalRepetition`: sequences of length ≤ 4 are never
flagged; otherwise the pattern is flagged when, for some sub-length from 2 to
`length / 2`, it equals its leading sub-unit repeated to fill (with the
leading `length % subLen` characters as remainder). -/
def hasExcessiveInternalRepetition (p : List Char) : Bool :=
  if p.length ≤ 4 then false
  else
    (List.range' 2 (p.length / 2 - 1)).any fun subLen =>
      p == repeatN (p.take subLen) (p.length / subLen) ++ p.take (p.length % subLen)

/-- Diversity multiplier `0.5 + uniqueChars / pattern.length`. -/
def diversityFactor (p : List Char) : ℚ :=
  1/2 + (distinctCount p : ℚ) / (p.length : ℚ)

/-- Length sweet-spot multiplier: ×1.2 for length 3..8, ×0.7 for length
greater than 12, neutral otherwise. -/
def lengthFactor (p : List Char) : ℚ :=
  if 3 ≤ p.length ∧ p.length ≤ 8 then 6/5
  else if 12 < p.length then 7/10 else 1

/-- Keyboard-coherence multiplier ×1.3. -/
def coherenceFactor (p : List Char) : ℚ :=
  if hasMusicalCoherence p then 13/10 else 1

/-- Internal-repetition penalty multiplier ×0.6. -/
def repetitionFactor (p : List Char) : ℚ :=
  if hasExcessiveInternalRepetition p then 3/5 else 1

/-- Source `calculatePatternQuality`: a running product of the four multipliers
starting from 1.0, clamped into [0.1, 2.0].  For the empty sequence the
source computes `uniqueChars / pattern.length = 0/0 = NaN`, and `NaN`
propagates through every multiplication and through
`Math.max(0.1, Math.min(2.0, NaN)) = NaN`; that is modelled as `none`.
Every call site inside the engine passes a sequence of length ≥ 2. -/
def calculatePatternQuality (p : List Char) : Option ℚ :=
  if p.length = 0 then none
  else some (max (1/10) (min 2
    (diversityFactor p * lengthFactor p * coherenceFactor p * repetitionFactor p)))

/-! ## Interval classifier -/

/-- The `ratios` table of `classifyInterval`: gap divided by each canonical
note duration scaled from the quarter note.  `rest` has no table entry and is
never queried. -/
def ratioOf (quarterNoteMs intervalMs : ℚ) : NoteValue → ℚ
  | .whole => intervalMs / (quarterNoteMs * 4)
  | .half => intervalMs / (quarterNoteMs * 2)
  | .quarter => intervalMs / quarterNoteMs
  | .eighth => intervalMs / (quarterNoteMs / 2)
  | .sixteenth => intervalMs / (quarterNoteMs / 4)
  | .thirtysecond => intervalMs / (quarterNoteMs / 8)
  | .rest => 0

/-- Source `Object.entries(ratios)` iteration order (object-literal insertion
order). -/
def ratioTableOrder : List NoteValue :=
  [.whole, .half, .quarter, .eighth, .sixteenth, .thirtysecond]

/-- Source `classifyInterval`: nearest-ratio category (initialised at `quarter`,
strict improvement while scanning the table), except that a gap exceeding
twice the quarter-note duration is classified `rest` regardless. -/
def classifyInterval (intervalMs tempo : ℚ) : NoteValue :=
  let quarterNoteMs := 60 / tempo * 1000
  let best := ratioTableOrder.foldl
    (fun b n =>
      let d := |ratioOf quarterNoteMs intervalMs n - 1|
      if d < b.2 then (n, d) else b)
    (NoteValue.quarter, |ratioOf quarterNoteMs intervalMs .quarter - 1|)
  if quarterNoteMs * 2 < intervalMs then .rest else best.1

/-! ## Pattern scoring -/

/-- Source `calculatePatternScore`: base `repetitions × length`, complexity bonus
`min(length/4, 5)`, variety bonus `0.5 × distinct`, recency bonus
`max(0, 5 - (now - lastSeen)/1000)` read from the entry's `lastSeen` field
at call time. -/
def calculatePatternScore (p : DetectedPattern) (reps : ℕ) (now : ℚ) : ℚ :=
  let baseScore := (reps : ℚ) * (p.length : ℚ)
  let complexityBonus := min ((p.length : ℚ) / 4) 5
  let uniqueCharsBonus := (distinctCount p.pattern : ℚ) * (1/2)
  let recencyBonus := max 0 (5 - (now - p.lastSeen) / 1000)
  baseScore + complexityBonus + uniqueCharsBonus + recencyBonus

/-- Source `calculateFreshnessPenalty`: usage-rate based multiplicative penalty.
`patternData.firstSeen || Date.now()` is the JS falsy check (a zero
timestamp falls back to the current time). -/
def calculateFreshnessPenalty (p : DetectedPattern) (now : ℚ) : ℚ :=
  let firstSeen := if p.firstSeen = 0 then now else p.firstSeen
  let timeSinceFirstSeen := now - firstSeen
  let usageRate := (p.frequency : ℚ) / max 1 (timeSinceFirstSeen / 1000)
  if 2 < usageRate then 1/10
  else if 1 < usageRate then 3/10
  else if 1/2 < usageRate then 7/10
  else 1

/-! ## Rhythm spam detection -/

/-- Source `isRhythmSpam`: key-holding (one distinct character, more than 3 keys,
average gap under 50 ms) or mashing (more than 70% of consecutive gaps under
80 ms). -/
def isRhythmSpam (ks : List Keystroke) : Bool :=
  if ks.length < 4 then false
  else
    let intervals := diffs (ks.map (·.timestamp))
    let keyHolding :=
      decide ((ks.map (·.char)).dedup.length = 1) && decide (3 < ks.length) &&
        decide (intervals.sum / (intervals.length : ℚ) < 50)
    let fastCount := (intervals.filter (fun t => decide (t < 80))).length
    keyHolding || decide ((7:ℚ)/10 < (fastCount : ℚ) / ((ks.length : ℚ) - 1))

/-! ## Per-pattern rhythm analysis -/

/-- Source `findPatternOccurrences`: every (possibly overlapping) match position of
`pat` in the character sequence of `ks`, each yielding the corresponding
keystroke slice.  The source's `indexOf`/`startIndex = found + 1` loop visits
exactly the match positions in increasing order. -/
def occurrenceSlices (pat : List Char) (ks : List Keystroke) : List (List Keystroke) :=
  let seq := ks.map (·.char)
  ((List.range (seq.length + 1 - pat.length)).filter
    (fun i => (seq.drop i).take pat.length = pat)).map
    (fun i => (ks.drop i).take pat.length)

/-- Classify the inter-key gaps of one occurrence slice. -/
def classifySlice (tempo : ℚ) (occ : List Keystroke) : List NoteValue :=
  (diffs (occ.map (·.timestamp))).map (fun t => classifyInterval t tempo)

/-- Source `analyzePatternRhythm`: most common per-occurrence rhythm with its share
as confidence; `null` when the pattern does not occur in the window.  The
most-common choice is the head of the stable descending sort by count, as in
`Array.from(entries).sort((a, b) => b[1] - a[1])[0]`. -/
def analyzePatternRhythm (tempo : ℚ) (pat : List Char) (ks : List Keystroke) :
    Option RhythmInfo :=
  let occ := occurrenceSlices pat ks
  if occ.length = 0 then none
  else
    let rhythms := occ.map (classifySlice tempo)
    let counts := rhythms.foldl bump []
    match (stableSort (fun a b => decide (b.2 ≤ a.2)) counts).head? with
    | some m => some { rhythm := m.1, confidence := (m.2 : ℚ) / (rhythms.length : ℚ) }
    | none => some { rhythm := [], confidence := 0 }

/-! ## Detector: one candidate offset -/

/-- The `while` loop counting consecutive non-overlapping repetitions of
`pat` after the first occurrence.  The source loops while
`nextStart <= sequence.length - patternLength` and the next `patternLength`
characters equal `pat`; the fuel argument (strictly larger than the possible
iteration count for the engine's `L ≥ 2`) makes the recursion structural. -/
def countReps (pat : List Char) (L : ℕ) : ℕ → List Char → ℕ
  | 0, _ => 0
  | fuel + 1, rest =>
    if L ≤ rest.length ∧ rest.take L = pat then
      1 + countReps pat L fuel (rest.drop L)
    else 0

/-- Fresh registry entry (the object literal defaulted by
`this.detectedPatterns.get(patternKey) || {...}`). -/
def newEntry (now : ℚ) (pat : List Char) (L : ℕ) (q : ℚ) : DetectedPattern :=
  { pattern := pat, length := L, frequency := 0, score := 0, lastSeen := 0,
    rhythmInfo := none, qualityScore := q, firstSeen := now }

/-- The field updates of `findPatternsOfLength` up to and including the score
assignment: `frequency += repetitions`, `lastSeen = Date.now()`, then
`score = calculatePatternScore(...)`.  Note the order: `lastSeen` is already
the current instant when the score is computed. -/
def updateEntryBase (now : ℚ) (pat : List Char) (L : ℕ) (reps : ℕ) (q : ℚ)
    (prev : Option DetectedPattern) : DetectedPattern :=
  let e0 := match prev with
    | some e => e
    | none => newEntry now pat L q
  let e1 : DetectedPattern := { e0 with frequency := e0.frequency + reps, lastSeen := now }
  { e1 with score := calculatePatternScore e1 reps now }

/-- The remaining field updates: rhythm info (the `if (keystrokeData)` guard
is always taken, an array being truthy), then the multiplicative freshness
penalty. -/
def updateEntry (now tempo : ℚ) (pat : List Char) (L : ℕ) (ks : List Keystroke)
    (reps : ℕ) (q : ℚ) (prev : Option DetectedPattern) : DetectedPattern :=
  let e2 := updateEntryBase now pat L reps q prev
  let e3 : DetectedPattern := { e2 with rhythmInfo := analyzePatternRhythm tempo pat ks }
  { e3 with score := e3.score * calculateFreshnessPenalty e3 now }

/-- One iteration of the sliding-window loop of `findPatternsOfLength` at
starting offset `i`.  When the key is already present, `existingPattern` is
the very object stored in the `Map`, so all its field mutations take effect
in the registry whether or not the final `score > 1.0` check passes; the
check only gates the insertion of previously absent keys. -/
def findPatternsStep (now tempo : ℚ) (seq : List Char) (L : ℕ) (ks : List Keystroke)
    (reg : Registry) (i : ℕ) : Registry :=
  let pat := (seq.drop i).take L
  if isSpamPattern pat then reg
  else
    let rest := seq.drop (i + L)
    let reps := 1 + countReps pat L (rest.length + 1) rest
    if reps < 2 then reg
    else
      -- every candidate here has length L ≥ 2, so the quality is never the
      -- NaN of the empty sequence; `getD 0` is an arbitrary value for the
      -- unreachable `none`
      let q := (calculatePatternQuality pat).getD 0
      if q < 3/10 then reg
      else
        match lookupA reg (pat, L) with
        | some prev =>
          setA reg (pat, L) (updateEntry now tempo pat L ks reps q (some prev))
        | none =>
          let e := updateEntry now tempo pat L ks reps q none
          if 1 < e.score then setA reg (pat, L) e else reg

/-- Source `findPatternsOfLength`: slide the window over every offset
`0 ≤ i ≤ sequence.length - 2 × patternLength`.  (The local `patterns` map
the source also builds is returned to a caller that discards it.) -/
def findPatternsOfLength (now tempo : ℚ) (seq : List Char) (L : ℕ)
    (ks : List Keystroke) (reg : Registry) : Registry :=
  (List.range (seq.length + 1 - 2 * L)).foldl (findPatternsStep now tempo seq L ks) reg

/-! ## Nested patterns, ranking, learning -/

/-- Ordered pairs `(l[i], l[j])` with `i < j`, in the double-loop order of
`findNestedPatterns`. -/
def pairsAfter {α : Type} : List α → List (α × α)
  | [] => []
  | x :: xs => xs.map (fun y => (x, y)) ++ pairsAfter xs

/-- Source `parentPattern.pattern.includes(childPattern.pattern)`. -/
def containsSub (big small : List Char) : Bool :=
  (List.range (big.length + 1)).any fun i => (big.drop i).take small.length == small

/-- Source `findNestedPatterns`: among registry entries above the score threshold,
sorted by length descending (stable), record every contains-relation.  The
source never clears `hierarchicalPatterns`, so relations accumulate. -/
def findNestedPatterns (s : EngineState) : EngineState :=
  let all := stableSort (fun a b => decide (b.length ≤ a.length))
    ((s.detectedPatterns.map Prod.snd).filter fun p => decide (patternScoreThreshold < p.score))
  let hier := (pairsAfter all).foldl (fun h pc =>
    if containsSub pc.1.pattern pc.2.pattern then
      setA h (pc.1.pattern, pc.2.pattern)
        { parent := pc.1, child := pc.2, nestingScore := pc.1.score * pc.2.score,
          relationship := "contains" }
    else h) s.hierarchicalPatterns
  { s with hierarchicalPatterns := hier }

/-- Source `categorizePattern`. -/
def categorizePattern (p : DetectedPattern) : PatternCategory :=
  if p.length ≤ 3 then .simple
  else if 8 ≤ p.length then .complex
  else
    let isRepeating := decide (2 < p.pattern.length) &&
      (p.pattern == repeatN (p.pattern.take (p.pattern.length / 2)) 2)
    if isRepeating then .repetitive
    else
      let chars := p.pattern
      let isAlternating := decide (2 < chars.length) &&
        (chars.enum.all fun ic =>
          decide (ic.1 < 2) || (chars.getD (ic.1 % 2) 'a' == ic.2))
      if isAlternating then .alternating else .varied

/-- The eviction test of `scoreAndRankPatterns`, negated into a keep
predicate: an entry is deleted exactly when
`pattern.lastSeen < Date.now() - 30000 && pattern.frequency < 3` (note the
strict `<` against the cutoff). -/
def keepEntry (now : ℚ) (kv : PatternKey × DetectedPattern) : Bool :=
  !(decide (kv.2.lastSeen < now - 30000) && decide (kv.2.frequency < 3))

/-- The decay assignment of `scoreAndRankPatterns`:
`score = score * max(0.1, 1 - timeSinceLastSeen / 60000)`. -/
def decayEntry (now : ℚ) (e : DetectedPattern) : DetectedPattern :=
  { e with score := e.score * max (1/10) (1 - (now - e.lastSeen) / 60000) }

/-- Source `scoreAndRankPatterns`: evict entries unseen for more than 30 s with
frequency below 3 (`lastSeen < Date.now() - 30000` is strict), decay every
remaining score by `max(0.1, 1 - sinceSeen/60000)`, then learn from the
top-10 above-threshold entries those with score above twice the threshold
that are not already learned, keeping the strongest 50. -/
def scoreAndRankPatterns (now : ℚ) (s : EngineState) : EngineState :=
  let reg1 := s.detectedPatterns.filter (keepEntry now)
  let reg2 := reg1.map fun kv => (kv.1, decayEntry now kv.2)
  let top := ((reg2.map Prod.snd).filter fun p => decide (patternScoreThreshold < p.score))
    |> stableSort (fun a b => decide (b.score ≤ a.score)) |>.take 10
  let learned := top.foldl (fun acc p =>
    if acc.any fun l => l.pattern == p.pattern then acc
    else if patternScoreThreshold * 2 < p.score then
      let acc2 := stableSort (fun a b => decide (b.strength ≤ a.strength))
        (acc ++ [{ pattern := p.pattern, learnedAt := now, strength := p.score,
                   category := categorizePattern p }])
      if 50 < acc2.length then acc2.take 50 else acc2
    else acc) s.learnedPatterns
  { s with detectedPatterns := reg2, learnedPatterns := learned }

/-- Source `analyzePatterns`: over the last 32 keystrokes, run the detector for
every pattern length from 2 to `min(64, windowSize / 2)`, then rebuild the
nested-pattern relations and rank/learn.  (For integer lengths, the JS float
bound `L <= windowSize / 2` coincides with the integer bound
`L ≤ windowSize / 2` using truncating division.) -/
def analyzePatterns (now : ℚ) (s : EngineState) : EngineState :=
  if s.keystrokeHistory.length < minPatternLength then s
  else
    let recent := lastN 32 s.keystrokeHistory
    let seq := recent.map (·.char)
    let maxL := min maxPatternLength (recent.length / 2)
    let reg := (List.range' 2 (maxL + 1 - 2)).foldl
      (fun r L => findPatternsOfLength now s.userStyle.averageTempo seq L recent r)
      s.detectedPatterns
    scoreAndRankPatterns now (findNestedPatterns { s with detectedPatterns := reg })

/-! ## Rhythm tracking and tempo -/

/-- Source `updateTempoEstimation`: push `60000 / (avgInterval × 4)` into a 20-deep
FIFO and set the running tempo to the history mean. -/
def updateTempoEstimation (intervals : List ℚ) (s : EngineState) : EngineState :=
  let avgInterval := intervals.sum / (intervals.length : ℚ)
  let estimatedTempo := 60000 / (avgInterval * 4)
  let th0 := s.tempoHistory ++ [estimatedTempo]
  let th := if 20 < th0.length then th0.drop 1 else th0
  { s with tempoHistory := th,
           userStyle := { s.userStyle with averageTempo := th.sum / (th.length : ℚ) } }

/-- Source `analyzeRhythm`: over the last 16 keystrokes (needs at least 4, skipped
entirely for rhythm spam), classify the inter-key gaps at the current running
tempo, aggregate the signature in the rhythm registry (frequency increment,
window-mean average interval, last-seen stamp), then update the tempo. -/
def analyzeRhythm (now : ℚ) (s : EngineState) : EngineState :=
  if s.keystrokeHistory.length < 4 then s
  else
    let recent := lastN 16 s.keystrokeHistory
    if isRhythmSpam recent then s
    else
      let intervals := diffs (recent.map (·.timestamp))
      let rhythmPattern := intervals.map fun t => classifyInterval t s.userStyle.averageTempo
      let e0 := (lookupA s.rhythmPatterns rhythmPattern).getD
        { pattern := rhythmPattern, frequency := 0, averageInterval := 0, lastSeen := 0 }
      let e1 : RhythmEntry := { e0 with
        frequency := e0.frequency + 1,
        averageInterval := intervals.sum / (intervals.length : ℚ),
        lastSeen := now }
      updateTempoEstimation intervals
        { s with rhythmPatterns := setA s.rhythmPatterns rhythmPattern e1 }

/-! ## Style model -/

/-- Source `updateUserStyle`: top-10 above-threshold patterns by score, complexity
class from their mean length, and the most common note category over all
tracked rhythm signatures.  When there are no top patterns the source
computes `0 / 0 = NaN` for the mean length; `NaN < 3` and `NaN > 6` are both
false, so the complexity falls through to `'medium'` — modelled by the
explicit empty case. -/
def updateUserStyle (s : EngineState) : EngineState :=
  let top := ((s.detectedPatterns.map Prod.snd).filter fun p =>
      decide (patternScoreThreshold < p.score))
    |> stableSort (fun a b => decide (b.score ≤ a.score)) |>.take 10
  let complexity :=
    if top.length = 0 then Complexity.medium
    else
      let avgPatternLength := ((top.map fun p => (p.length : ℚ)).sum) / (top.length : ℚ)
      if avgPatternLength < 3 then Complexity.simple
      else if 6 < avgPatternLength then Complexity.complex
      else Complexity.medium
  let counts := s.rhythmPatterns.foldl (fun acc kv => kv.2.pattern.foldl bump acc)
    ([] : List (NoteValue × ℕ))
  let style1 := { s.userStyle with preferredPatterns := top, patternComplexity := complexity }
  let style2 := match (stableSort (fun a b => decide (b.2 ≤ a.2)) counts).head? with
    | some m => { style1 with rhythmPreference := m.1 }
    | none => style1
  { s with userStyle := style2 }

/-! ## The keystroke entry point -/

/-- The constructor state of `PatternAIEngine` (before any persistence
load). -/
def initialState : EngineState :=
  { keystrokeHistory := [], detectedPatterns := [], hierarchicalPatterns := [],
    learnedPatterns := [], tempoHistory := [], rhythmPatterns := [],
    userStyle := { preferredPatterns := [], averageTempo := 120,
                   rhythmPreference := .quarter, patternComplexity := .medium,
                   musicalScale := "pentatonic" } }

/-- Source `recordKeystroke`: push the lowercased keystroke (with timing and beat
position), trim the history to the last 1000, and — once at least
`minPatternLength` keystrokes exist — run the full analysis pass
(`analyzePatterns`, `analyzeRhythm`, `updateUserStyle`).  The suggestion list
the source returns is advisory, `Math.random`-dependent and never stored, so
the model returns only the state.  `char.toLowerCase()` is modelled by
`Char.toLower` (they agree on the basic-latin keyboard characters the game
feeds). -/
def recordKeystroke (s : EngineState) (inp : KeyInput) : EngineState :=
  let k : Keystroke :=
    { char := inp.char.toLower, timestamp := inp.timestamp,
      musicalNote := inp.musicalNote,
      timeSinceLastKey := match s.keystrokeHistory.getLast? with
        | some prev => inp.timestamp - prev.timestamp
        | none => 0,
      beatPosition := inp.beatPos }
  let hist0 := s.keystrokeHistory ++ [k]
  let hist := if 1000 < hist0.length then hist0.drop 1 else hist0
  let s1 := { s with keystrokeHistory := hist }
  if minPatternLength ≤ s1.keystrokeHistory.length then
    updateUserStyle (analyzeRhythm inp.now (analyzePatterns inp.now s1))
  else s1

/-- States reachable by keystroke processing from the fresh engine. -/
inductive Reachable : EngineState → Prop
  | init : Reachable initialState
  | step {s : EngineState} (inp : KeyInput) : Reachable s → Reachable (recordKeystroke s inp)

/-! ## Persistence -/

/-- The `userData` object written by `saveUserPatterns` (JSON round-trips
the entry arrays and plain values exactly).  The `learnedPatterns` list is
not part of it. -/
structure Snapshot : Type where
  detectedPatterns : Registry
  hierarchicalPatterns : List ((List Char × List Char) × HierarchicalEntry)
  rhythmPatterns : List (List NoteValue × RhythmEntry)
  userStyle : UserStyle
  lastSaved : ℚ
deriving DecidableEq

/-- Source `saveUserPatterns`. -/
def saveUserPatterns (s : EngineState) (now : ℚ) : Snapshot :=
  { detectedPatterns := s.detectedPatterns,
    hierarchicalPatterns := s.hierarchicalPatterns,
    rhythmPatterns := s.rhythmPatterns,
    userStyle := s.userStyle,
    lastSaved := now }

/-- Source `loadUserPatterns` applied to a present, well-formed snapshot: the three
registries and the style model are replaced; every other field (keystroke
history, learned patterns, tempo history) keeps the receiving engine's
value. -/
def loadUserPatterns (s : EngineState) (snap : Snapshot) : EngineState :=
  { s with detectedPatterns := snap.detectedPatterns,
           hierarchicalPatterns := snap.hierarchicalPatterns,
           rhythmPatterns := snap.rhythmPatterns,
           userStyle := snap.userStyle }

/-! ## Association-list lemmas -/

theorem lookupA_setA_self {κ ν : Type} [DecidableEq κ] (l : List (κ × ν)) (k : κ) (v : ν) :
    lookupA (setA l k v) k = some v := by
  induction l with
  | nil => simp [lookupA, setA]
  | cons kv rest ih =>
    by_cases h : kv.1 = k
    · simp [setA, h, lookupA]
    · simp [setA, h, lookupA, ih]

theorem lookupA_setA_ne {κ ν : Type} [DecidableEq κ] (l : List (κ × ν)) (k k' : κ) (v : ν)
    (h : k' ≠ k) : lookupA (setA l k v) k' = lookupA l k' := by
  induction l with
  | nil => simp [lookupA, setA, Ne.symm h]
  | cons kv rest ih =>
    by_cases h2 : kv.1 = k
    · subst h2
      simp [setA, lookupA, Ne.symm h]
    · simp only [setA, if_neg h2]
      by_cases h3 : kv.1 = k'
      · simp [lookupA, h3]
      · simp [lookupA, h3, ih]

theorem mem_setA {κ ν : Type} [DecidableEq κ] {l : List (κ × ν)} {k : κ} {v : ν}
    {kv : κ × ν} (h : kv ∈ setA l k v) : kv ∈ l ∨ kv = (k, v) := by
  induction l with
  | nil => simp [setA] at h; simp [h]
  | cons kv0 rest ih =>
    by_cases h2 : kv0.1 = k
    · rw [setA, if_pos h2] at h
      rcases List.mem_cons.mp h with h3 | h3
      · exact Or.inr h3
      · exact Or.inl (List.mem_cons_of_mem _ h3)
    · rw [setA, if_neg h2] at h
      rcases List.mem_cons.mp h with h3 | h3
      · exact Or.inl (h3 ▸ List.mem_cons_self _ _)
      · rcases ih h3 with h4 | h4
        · exact Or.inl (List.mem_cons_of_mem _ h4)
        · exact Or.inr h4

theorem lookupA_mem {κ ν : Type} [DecidableEq κ] {l : List (κ × ν)} {k : κ} {v : ν}
    (h : lookupA l k = some v) : (k, v) ∈ l := by
  induction l with
  | nil => simp [lookupA] at h
  | cons kv rest ih =>
    by_cases h2 : kv.1 = k
    · rw [lookupA, if_pos h2] at h
      obtain ⟨k1, v1⟩ := kv
      simp only at h2
      simp only [Option.some.injEq] at h
      subst h2
      subst h
      exact List.mem_cons_self _ _
    · rw [lookupA, if_neg h2] at h
      exact List.mem_cons_of_mem _ (ih h)

theorem lookupA_map_value {κ ν : Type} [DecidableEq κ] (l : List (κ × ν)) (f : ν → ν) (k : κ) :
    lookupA (l.map fun kv => (kv.1, f kv.2)) k = (lookupA l k).map f := by
  induction l with
  | nil => simp [lookupA]
  | cons kv rest ih =>
    by_cases h : kv.1 = k
    · simp [lookupA, h]
    · simp [lookupA, h, ih]

theorem lookupA_eq_none_of_not_mem {κ ν : Type} [DecidableEq κ] {l : List (κ × ν)} {k : κ}
    (h : k ∉ l.map Prod.fst) : lookupA l k = none := by
  induction l with
  | nil => rfl
  | cons kv rest ih =>
    simp only [List.map_cons, List.mem_cons] at h
    push_neg at h
    rw [lookupA, if_neg (fun h2 => h.1 h2.symm), ih h.2]

theorem lookupA_filter_nodup {κ ν : Type} [DecidableEq κ] {l : List (κ × ν)}
    (p : κ × ν → Bool) {k : κ} {v : ν}
    (hnd : (l.map Prod.fst).Nodup) (h : lookupA l k = some v) :
    lookupA (l.filter p) k = if p (k, v) = true then some v else none := by
  induction l with
  | nil => simp [lookupA] at h
  | cons kv rest ih =>
    simp only [List.map_cons, List.nodup_cons] at hnd
    by_cases h2 : kv.1 = k
    · rw [lookupA, if_pos h2] at h
      have hkv : kv = (k, v) := by
        obtain ⟨k1, v1⟩ := kv
        simp only at h2
        simp only [Option.some.injEq] at h
        simp [h2, h]
      subst hkv
      have hnone : lookupA (rest.filter p) k = none := by
        apply lookupA_eq_none_of_not_mem
        intro hmem
        obtain ⟨kv2, hkv2, hfst⟩ := List.mem_map.mp hmem
        exact hnd.1 (List.mem_map.mpr ⟨kv2, List.mem_of_mem_filter hkv2, hfst⟩)
      by_cases h3 : p (k, v) = true
      · rw [List.filter_cons_of_pos h3, if_pos h3, lookupA, if_pos rfl]
      · rw [List.filter_cons_of_neg (by simpa using h3), if_neg h3]
        exact hnone
    · rw [lookupA, if_neg h2] at h
      by_cases h3 : p kv = true
      · rw [List.filter_cons_of_pos h3, lookupA, if_neg h2]
        exact ih hnd.2 h
      · rw [List.filter_cons_of_neg (by simpa using h3)]
        exact ih hnd.2 h

/-- Fold invariant: a property preserved by every step holds of the result. -/
theorem foldl_inv {α β : Type} (P : β → Prop) (f : β → α → β) (l : List α) (b : β)
    (hb : P b) (hf : ∀ b a, a ∈ l → P b → P (f b a)) : P (l.foldl f b) := by
  induction l generalizing b with
  | nil => exact hb
  | cons x xs ih =>
    exact ih (f b x) (hf b x (List.mem_cons_self _ _) hb)
      (fun b a ha => hf b a (List.mem_cons_of_mem _ ha))

/-! ## Arithmetic facts about the scoring pipeline -/

theorem le_foldl_max (l : List ℕ) (a : ℕ) : a ≤ l.foldl max a := by
  induction l generalizing a with
  | nil => exact le_refl a
  | cons x xs ih => exact le_trans (le_max_left a x) (ih (max a x))

theorem mem_le_foldl_max (l : List ℕ) (a x : ℕ) (h : x ∈ l) : x ≤ l.foldl max a := by
  induction l generalizing a with
  | nil => simp at h
  | cons y ys ih =>
    rcases List.mem_cons.mp h with h2 | h2
    · subst h2
      exact le_trans (le_max_right a x) (le_foldl_max ys (max a x))
    · exact ih (max a y) h2

/-- A sequence that passes the spam filter and is non-empty uses at least two
distinct characters: with a single distinct character the most frequent
character occupies 100% > 60% of the sequence. -/
theorem two_le_distinctCount {p : List Char} (hne : p ≠ [])
    (hspam : isSpamPattern p = false) : 2 ≤ distinctCount p := by
  by_contra hlt
  push_neg at hlt
  interval_cases h : distinctCount p
  · exact hne (by simpa [distinctCount, List.length_eq_zero] using h)
  · obtain ⟨c, hc⟩ := List.length_eq_one.mp h
    have hall : ∀ b ∈ p, c = b := by
      intro b hb
      have : b ∈ p.dedup := List.mem_dedup.mpr hb
      rw [hc] at this
      simpa using (List.mem_singleton.mp this).symm
    have hcount : p.count c = p.length := List.count_eq_length.mpr hall
    have hcmem : p.count c ∈ p.dedup.map fun c => p.count c := by
      apply List.mem_map.mpr
      exact ⟨c, by simp [hc], rfl⟩
    have hmax : p.length ≤ maxCharFreq p := hcount ▸ mem_le_foldl_max _ 0 _ hcmem
    have hlen : 0 < p.length := List.length_pos.mpr hne
    have hratio : (3:ℚ)/5 < (maxCharFreq p : ℚ) / (p.length : ℚ) := by
      have h1 : (1:ℚ) ≤ (maxCharFreq p : ℚ) / (p.length : ℚ) := by
        rw [le_div_iff (by exact_mod_cast hlen)]
        simpa using (Nat.cast_le (α := ℚ)).mpr hmax
      linarith
    have : isSpamPattern p = true := by
      unfold isSpamPattern
      simp [hratio]
    rw [this] at hspam
    exact Bool.true_eq_false ▸ (by simpa using hspam)

theorem freshnessPenalty_lb (p : DetectedPattern) (now : ℚ) :
    1/10 ≤ calculateFreshnessPenalty p now := by
  simp only [calculateFreshnessPenalty]
  split_ifs <;> norm_num

theorem freshnessPenalty_pos (p : DetectedPattern) (now : ℚ) :
    0 < calculateFreshnessPenalty p now :=
  lt_of_lt_of_le (by norm_num) (freshnessPenalty_lb p now)

/-- The entry an update starts from: the stored entry when the key is
present, the defaulted fresh object otherwise. -/
def entryBefore (now : ℚ) (pat : List Char) (L : ℕ) (q : ℚ)
    (prev : Option DetectedPattern) : DetectedPattern :=
  match prev with
  | some e => e
  | none => newEntry now pat L q

theorem updateEntryBase_eq (now : ℚ) (pat : List Char) (L : ℕ) (reps : ℕ) (q : ℚ)
    (prev : Option DetectedPattern) :
    updateEntryBase now pat L reps q prev =
      (fun e1 => { e1 with score := calculatePatternScore e1 reps now })
      { entryBefore now pat L q prev with
        frequency := (entryBefore now pat L q prev).frequency + reps, lastSeen := now } := by
  unfold updateEntryBase entryBefore
  cases prev <;> rfl

/-- Because `lastSeen` is overwritten with the current instant before
`calculatePatternScore` reads it, the recency bonus of an update is always
`max(0, 5 - 0) = 5`. -/
theorem updateEntryBase_score (now : ℚ) (pat : List Char) (L : ℕ) (reps : ℕ) (q : ℚ)
    (prev : Option DetectedPattern) :
    (updateEntryBase now pat L reps q prev).score =
      (reps : ℚ) * ((entryBefore now pat L q prev).length : ℚ) +
      min (((entryBefore now pat L q prev).length : ℚ) / 4) 5 +
      (distinctCount (entryBefore now pat L q prev).pattern : ℚ) * (1/2) + 5 := by
  rw [updateEntryBase_eq]
  show calculatePatternScore _ reps now = _
  unfold calculatePatternScore
  simp only []
  norm_num

theorem updateEntry_score (now tempo : ℚ) (pat : List Char) (L : ℕ)
    (ks : List Keystroke) (reps : ℕ) (q : ℚ) (prev : Option DetectedPattern) :
    (updateEntry now tempo pat L ks reps q prev).score =
      (updateEntryBase now pat L reps q prev).score *
        calculateFreshnessPenalty
          { updateEntryBase now pat L reps q prev with
            rhythmInfo := analyzePatternRhythm tempo pat ks } now := rfl

theorem updateEntry_pattern (now tempo : ℚ) (pat : List Char) (L : ℕ)
    (ks : List Keystroke) (reps : ℕ) (q : ℚ) (prev : Option DetectedPattern) :
    (updateEntry now tempo pat L ks reps q prev).pattern =
      (entryBefore now pat L q prev).pattern := by
  unfold updateEntry updateEntryBase entryBefore
  cases prev <;> rfl

theorem updateEntry_length (now tempo : ℚ) (pat : List Char) (L : ℕ)
    (ks : List Keystroke) (reps : ℕ) (q : ℚ) (prev : Option DetectedPattern) :
    (updateEntry now tempo pat L ks reps q prev).length =
      (entryBefore now pat L q prev).length := by
  unfold updateEntry updateEntryBase entryBefore
  cases prev <;> rfl

/-- Every update writes a strictly positive score: the recency bonus alone
puts the pre-penalty score at 5 or more, and the penalty is at least 0.1. -/
theorem updateEntry_score_pos (now tempo : ℚ) (pat : List Char) (L : ℕ)
    (ks : List Keystroke) (reps : ℕ) (q : ℚ) (prev : Option DetectedPattern) :
    0 < (updateEntry now tempo pat L ks reps q prev).score := by
  rw [updateEntry_score]
  apply mul_pos _ (freshnessPenalty_pos _ _)
  rw [updateEntryBase_score]
  have h1 : (0:ℚ) ≤ (reps : ℚ) * ((entryBefore now pat L q prev).length : ℚ) := by positivity
  have h2 : (0:ℚ) ≤ min (((entryBefore now pat L q prev).length : ℚ) / 4) 5 :=
    le_min (by positivity) (by norm_num)
  have h3 : (0:ℚ) ≤ (distinctCount (entryBefore now pat L q prev).pattern : ℚ) * (1/2) := by
    positivity
  linarith

/-- When the candidate is a genuine detector candidate (non-spam, length
`L ≥ 2`, at least two repetitions) and the stored entry (if any) is
well-formed for its key, the post-penalty score exceeds 1: the pre-penalty
score is at least `2·2 + 1/2 + 1 + 5 = 10.5` and the penalty at least 0.1,
so the `score > 1.0` persistence check can never fail. -/
theorem one_lt_updateEntry_score (now tempo : ℚ) (pat : List Char) (L : ℕ)
    (ks : List Keystroke) (reps : ℕ) (q : ℚ) (prev : Option DetectedPattern)
    (hspam : isSpamPattern pat = false) (hpat : pat.length = L) (hL : 2 ≤ L)
    (hreps : 2 ≤ reps)
    (hprev : ∀ e, prev = some e → e.pattern = pat ∧ e.length = L) :
    1 < (updateEntry now tempo pat L ks reps q prev).score := by
  have hepat : (entryBefore now pat L q prev).pattern = pat := by
    cases prev with
    | none => rfl
    | some e => exact (hprev e rfl).1
  have helen : (entryBefore now pat L q prev).length = L := by
    cases prev with
    | none => rfl
    | some e => exact (hprev e rfl).2
  have hne : pat ≠ [] := by
    intro h
    rw [h] at hpat
    simp at hpat
    omega
  have hd : 2 ≤ distinctCount pat := two_le_distinctCount hne hspam
  rw [updateEntry_score, updateEntryBase_score, hepat, helen]
  have hb : (21:ℚ)/2 ≤
      (reps : ℚ) * (L : ℚ) + min ((L : ℚ) / 4) 5 + (distinctCount pat : ℚ) * (1/2) + 5 := by
    have h1 : (4:ℚ) ≤ (reps : ℚ) * (L : ℚ) := by
      have hr : (2:ℚ) ≤ (reps : ℚ) := by exact_mod_cast hreps
      have hl : (2:ℚ) ≤ (L : ℚ) := by exact_mod_cast hL
      nlinarith
    have h2 : (1:ℚ)/2 ≤ min ((L : ℚ) / 4) 5 := by
      have hl : (2:ℚ) ≤ (L : ℚ) := by exact_mod_cast hL
      apply le_min _ (by norm_num)
      linarith
    have h3 : (1:ℚ) ≤ (distinctCount pat : ℚ) * (1/2) := by
      have : (2:ℚ) ≤ (distinctCount pat : ℚ) := by exact_mod_cast hd
      linarith
    linarith
  have hp := freshnessPenalty_lb
    { updateEntryBase now pat L reps q prev with
      rhythmInfo := analyzePatternRhythm tempo pat ks } now
  have hbpos : (0:ℚ) < (reps : ℚ) * (L : ℚ) + min ((L : ℚ) / 4) 5 +
      (distinctCount pat : ℚ) * (1/2) + 5 := by linarith
  calc (1:ℚ) < (21/2) * (1/10) := by norm_num
  _ ≤ ((reps : ℚ) * (L : ℚ) + min ((L : ℚ) / 4) 5 + (distinctCount pat : ℚ) * (1/2) + 5) *
      calculateFreshnessPenalty _ now := by
    apply mul_le_mul hb hp (by norm_num) (le_of_lt hbpos)

/-! ## Structure of one detector step -/

/-- Field agreement between a registry entry and its composite key (always
true of registries the engine builds). -/
def WellFormedRegistry (reg : Registry) : Prop :=
  ∀ kv ∈ reg, kv.2.pattern = kv.1.1 ∧ kv.2.length = kv.1.2

/-- Case analysis of `findPatternsStep`: the step either leaves the registry
unchanged, or stores an `updateEntry` result at the candidate's key after all
the guards (spam, ≥ 2 repetitions, quality) have passed; a previously absent
key is additionally stored only when the post-penalty score exceeds 1. -/
theorem findPatternsStep_cases (now tempo : ℚ) (seq : List Char) (L : ℕ)
    (ks : List Keystroke) (reg : Registry) (i : ℕ) :
    findPatternsStep now tempo seq L ks reg i = reg ∨
    ∃ reps q prev,
      isSpamPattern ((seq.drop i).take L) = false ∧ 2 ≤ reps ∧
      lookupA reg ((seq.drop i).take L, L) = prev ∧
      (prev = none →
        1 < (updateEntry now tempo ((seq.drop i).take L) L ks reps q prev).score) ∧
      findPatternsStep now tempo seq L ks reg i =
        setA reg ((seq.drop i).take L, L)
          (updateEntry now tempo ((seq.drop i).take L) L ks reps q prev) := by
  rw [findPatternsStep]
  simp only []
  split
  · exact Or.inl rfl
  next hspam =>
    split
    · exact Or.inl rfl
    next hreps =>
      split
      · exact Or.inl rfl
      next hq =>
        rcases hl : lookupA reg ((seq.drop i).take L, L) with _ | prev
        · simp only [hl]
          split
          next hscore =>
            refine Or.inr ⟨_, _, none, ?_, ?_, rfl, ?_, rfl⟩
            · simpa using hspam
            · omega
            · intro
              exact hscore
          · exact Or.inl rfl
        · simp only [hl]
          refine Or.inr ⟨_, _, some prev, ?_, ?_, rfl, ?_, rfl⟩
          · simpa using hspam
          · omega
          · intro h
            exact absurd h (by simp)

theorem candidate_length {seq : List Char} {i L : ℕ} (hi : i + 2 * L ≤ seq.length) :
    ((seq.drop i).take L).length = L := by
  simp only [List.length_take, List.length_drop]
  omega

theorem wf_setA_update (now tempo : ℚ) (pat : List Char) (L : ℕ) (ks : List Keystroke)
    (reps : ℕ) (q : ℚ) (prev : Option DetectedPattern) {reg : Registry}
    (hwf : WellFormedRegistry reg)
    (hprev : lookupA reg (pat, L) = prev) :
    WellFormedRegistry (setA reg (pat, L) (updateEntry now tempo pat L ks reps q prev)) := by
  intro kv hkv
  rcases mem_setA hkv with h | h
  · exact hwf kv h
  · subst h
    rw [updateEntry_pattern, updateEntry_length]
    cases prev with
    | none => exact ⟨rfl, rfl⟩
    | some e =>
      have := hwf (⟨(pat, L), e⟩) (lookupA_mem hprev)
      exact this

theorem wf_findPatternsStep (now tempo : ℚ) (seq : List Char) (L : ℕ)
    (ks : List Keystroke) {reg : Registry} (i : ℕ) (hwf : WellFormedRegistry reg) :
    WellFormedRegistry (findPatternsStep now tempo seq L ks reg i) := by
  rcases findPatternsStep_cases now tempo seq L ks reg i with h | ⟨reps, q, prev, _, _, hprev, _, heq⟩
  · rw [h]; exact hwf
  · rw [heq]; exact wf_setA_update now tempo _ L ks reps q prev hwf hprev

/-- Any key whose binding a detector step changes ends up bound to an entry
with post-penalty score above 1. -/
theorem findPatternsStep_change (now tempo : ℚ) (seq : List Char) (L : ℕ)
    (ks : List Keystroke) {reg : Registry} {i : ℕ} {key : PatternKey}
    (hL : 2 ≤ L) (hi : i + 2 * L ≤ seq.length) (hwf : WellFormedRegistry reg)
    (hchange : lookupA (findPatternsStep now tempo seq L ks reg i) key ≠ lookupA reg key) :
    ∃ e, lookupA (findPatternsStep now tempo seq L ks reg i) key = some e ∧ 1 < e.score := by
  rcases findPatternsStep_cases now tempo seq L ks reg i with
    h | ⟨reps, q, prev, hspam, hreps, hprev, hnew, heq⟩
  · rw [h] at hchange
    exact absurd rfl hchange
  · rw [heq] at hchange ⊢
    by_cases hkey : key = ((seq.drop i).take L, L)
    · subst hkey
      refine ⟨_, lookupA_setA_self _ _ _, ?_⟩
      cases prev with
      | none => exact hnew rfl
      | some e =>
        apply one_lt_updateEntry_score now tempo _ L ks reps q (some e) hspam
          (candidate_length hi) hL hreps
        intro e2 he2
        obtain rfl : e = e2 := by injection he2
        have := hwf (⟨((seq.drop i).take L, L), e⟩) (lookupA_mem hprev)
        exact ⟨this.1, this.2⟩
    · rw [lookupA_setA_ne _ _ _ _ hkey] at hchange
      exact absurd rfl hchange

theorem foldl_step_change (now tempo : ℚ) (seq : List Char) (L : ℕ) (ks : List Keystroke)
    (hL : 2 ≤ L) :
    ∀ (is : List ℕ) (reg : Registry), (∀ i ∈ is, i + 2 * L ≤ seq.length) →
      WellFormedRegistry reg → ∀ key,
      lookupA (is.foldl (findPatternsStep now tempo seq L ks) reg) key ≠ lookupA reg key →
      ∃ e, lookupA (is.foldl (findPatternsStep now tempo seq L ks) reg) key = some e ∧
        1 < e.score := by
  intro is
  induction is with
  | nil =>
    intro reg _ _ key hchange
    exact absurd rfl hchange
  | cons i rest ih =>
    intro reg his hwf key hchange
    rw [List.foldl_cons] at hchange ⊢
    have hwf1 : WellFormedRegistry (findPatternsStep now tempo seq L ks reg i) :=
      wf_findPatternsStep now tempo seq L ks i hwf
    by_cases hsame :
        lookupA (rest.foldl (findPatternsStep now tempo seq L ks)
          (findPatternsStep now tempo seq L ks reg i)) key =
        lookupA (findPatternsStep now tempo seq L ks reg i) key
    · rw [hsame] at hchange ⊢
      exact findPatternsStep_change now tempo seq L ks hL
        (his i (List.mem_cons_self _ _)) hwf hchange
    · exact ih (findPatternsStep now tempo seq L ks reg i)
        (fun j hj => his j (List.mem_cons_of_mem _ hj)) hwf1 key hsame

/-- C2: During a detector scan for a candidate length, the pattern registry
changes at a key only by persisting or updating an entry whose post-penalty
score exceeds 1.0; equivalently, every candidate whose post-penalty score is
≤ 1.0 leaves the registry untouched at its key (no entry is created and no
field of an existing entry is modified).  In fact no candidate reaching the
persistence check can score ≤ 1.0: the always-granted recency bonus puts the
pre-penalty score at ≥ 10.5 and the freshness penalty is ≥ 0.1. -/
theorem C2_registry_gate (now tempo : ℚ) (seq : List Char) (L : ℕ)
    (ks : List Keystroke) (reg : Registry) (key : PatternKey)
    (hL : 2 ≤ L) (hwf : WellFormedRegistry reg)
    (hchange : lookupA (findPatternsOfLength now tempo seq L ks reg) key ≠ lookupA reg key) :
    ∃ e, lookupA (findPatternsOfLength now tempo seq L ks reg) key = some e ∧
      1 < e.score := by
  rw [findPatternsOfLength] at hchange ⊢
  apply foldl_step_change now tempo seq L ks hL _ reg _ hwf key hchange
  intro i hi
  rw [List.mem_range] at hi
  omega

/-- The registry produced by the detector scan over the window "abab" with
candidate length 2 starting from the empty registry. -/
def ababEntry : DetectedPattern :=
  { pattern := ['a','b'], length := 2, frequency := 2, score := 63/20,
    lastSeen := 0, rhythmInfo := none, qualityScore := 39/20, firstSeen := 0 }

theorem fPOL_abab_eval :
    findPatternsOfLength 0 120 ['a','b','a','b'] 2 [] [] = [((['a','b'], 2), ababEntry)] := by
  simp +decide [findPatternsOfLength, findPatternsStep, isSpamPattern, maxCharFreq,
    allSameChar, repeatN, distinctCount, countReps, calculatePatternQuality,
    diversityFactor, lengthFactor, coherenceFactor, repetitionFactor,
    hasMusicalCoherence, hasExcessiveInternalRepetition, rowPositions, keyboardRowList,
    lookupA, setA, updateEntry, updateEntryBase, newEntry, calculatePatternScore,
    calculateFreshnessPenalty, analyzePatternRhythm, occurrenceSlices, classifySlice,
    diffs, bump, stableSort, insertStable, List.range_succ, List.range_zero, ababEntry]
  norm_num

/-- Witness for C2: scanning "abab" for length 2 changes the empty registry
at the key ("ab", 2), and the stored entry's score (3.15) exceeds 1. -/
theorem C2_witness :
    ∃ e, lookupA (findPatternsOfLength 0 120 ['a','b','a','b'] 2 [] []) (['a','b'], 2) =
      some e ∧ 1 < e.score := by
  apply C2_registry_gate 0 120 ['a','b','a','b'] 2 [] [] (['a','b'], 2)
    (by norm_num) (by intro kv hkv; simp at hkv)
  rw [fPOL_abab_eval]
  simp [lookupA]

/-! ## C1: the per-update score formula -/

/-- The score formula exactly as the specification states it: the recency
term is measured against the pattern's previous last-seen timestamp as it
stood before the update.  (Definition follows the spec's words, for
comparison with `updateEntryBase`, which follows the source.) -/
def specClaimedScore (reps len distinct : ℕ) (prevLastSeen now : ℚ) : ℚ :=
  (reps : ℚ) * (len : ℚ) + min ((len : ℚ) / 4) 5 + (1/2) * (distinct : ℚ) +
    max 0 (5 - (now - prevLastSeen) / 1000)

/-- C1 counterexample: the claimed formula fails on the code.  Updating an
entry for "ab" previously last seen at time 0 at `now = 10000` (ten seconds
later) stores the pre-penalty score 10.5 — the source overwrites `lastSeen`
with the current time before computing the recency bonus, so the bonus is the
full 5 — while the claimed formula (recency measured against the previous
last-seen stamp) yields 5.5. -/
theorem C1_counterexample :
    ¬ ∀ (now : ℚ) (pat : List Char) (L reps : ℕ) (q : ℚ) (e : DetectedPattern),
      e.pattern = pat → e.length = L →
      (updateEntryBase now pat L reps q (some e)).score =
        specClaimedScore reps L (distinctCount pat) e.lastSeen now := by
  intro h
  have h2 := h 10000 ['a','b'] 2 2 (39/20)
    { pattern := ['a','b'], length := 2, frequency := 1, score := 2, lastSeen := 0,
      rhythmInfo := none, qualityScore := 39/20, firstSeen := 0 } rfl rfl
  rw [updateEntryBase_score] at h2
  simp +decide [specClaimedScore, entryBefore, distinctCount] at h2
  norm_num [min_def, max_def] at h2

/-- C1 amended: on every update of a detected pattern the stored pre-penalty
score equals `repetitions × length + min(length/4, 5) + 0.5 × distinctCharCount
+ 5`: because the update writes `lastSeen = Date.now()` before calling
`calculatePatternScore`, the recency term `max(0, 5 − secondsSinceLastSeen)`
always evaluates to the full bonus 5, regardless of when the pattern was
previously seen. -/
theorem C1_update_score (now : ℚ) (pat : List Char) (L reps : ℕ) (q : ℚ)
    (prev : Option DetectedPattern)
    (hprev : ∀ e, prev = some e → e.pattern = pat ∧ e.length = L) :
    (updateEntryBase now pat L reps q prev).score =
      (reps : ℚ) * (L : ℚ) + min ((L : ℚ) / 4) 5 + (distinctCount pat : ℚ) * (1/2) + 5 := by
  rw [updateEntryBase_score]
  have h1 : (entryBefore now pat L q prev).pattern = pat := by
    cases prev with
    | none => rfl
    | some e => exact (hprev e rfl).1
  have h2 : (entryBefore now pat L q prev).length = L := by
    cases prev with
    | none => rfl
    | some e => exact (hprev e rfl).2
  rw [h1, h2]

/-- Witness for C1: updating the stored "ab" entry (previously seen 10
seconds ago) yields pre-penalty score `2·2 + 0.5 + 1 + 5`. -/
theorem C1_witness :
    (updateEntryBase 10000 ['a','b'] 2 2 (39/20)
        (some { pattern := ['a','b'], length := 2, frequency := 1, score := 2,
                lastSeen := 0, rhythmInfo := none, qualityScore := 39/20,
                firstSeen := 0 })).score =
      (2 : ℚ) * (2 : ℚ) + min ((2 : ℚ) / 4) 5 + (distinctCount ['a','b'] : ℚ) * (1/2) + 5 := by
  apply C1_update_score
  intro e he
  injection he with he2
  rw [← he2]
  exact ⟨rfl, rfl⟩

/-! ## C3: eviction boundary -/

theorem scoreAndRank_detected (now : ℚ) (s : EngineState) :
    (scoreAndRankPatterns now s).detectedPatterns =
      (s.detectedPatterns.filter (keepEntry now)).map
        fun kv => (kv.1, decayEntry now kv.2) := rfl

/-- C3 amended: an analysis pass removes a registry entry if and only if, at
the time of the pass, its last-seen stamp is strictly older than
`now - 30000` (last-seen age strictly greater than 30 seconds) and its
frequency is below 3.  An entry aged exactly 30 seconds is kept. -/
theorem C3_eviction_iff (now : ℚ) (s : EngineState) (key : PatternKey)
    (e : DetectedPattern)
    (hnd : (s.detectedPatterns.map Prod.fst).Nodup)
    (hl : lookupA s.detectedPatterns key = some e) :
    lookupA (scoreAndRankPatterns now s).detectedPatterns key = none ↔
      e.lastSeen < now - 30000 ∧ e.frequency < 3 := by
  rw [scoreAndRank_detected, lookupA_map_value,
    lookupA_filter_nodup (keepEntry now) hnd hl]
  by_cases hk : keepEntry now (key, e) = true
  · rw [if_pos hk]
    simp only [Option.map_some']
    constructor
    · intro h
      exact absurd h (by simp)
    · intro h
      have : keepEntry now (key, e) = false := by
        simp [keepEntry, h.1, h.2]
      rw [this] at hk
      exact absurd hk (by simp)
  · rw [if_neg hk]
    simp only [Option.map_none']
    constructor
    · intro _
      have h2 : ¬ (!(decide (e.lastSeen < now - 30000) && decide (e.frequency < 3))) = true := hk
      simp at h2
      exact ⟨by linarith [h2.1], h2.2⟩
    · intro _
      trivial

/-- A registry state holding one entry, last seen at time 0 with frequency 2
and score 1. -/
def c3Entry : DetectedPattern :=
  { pattern := ['a','b'], length := 2, frequency := 2, score := 1, lastSeen := 0,
    rhythmInfo := none, qualityScore := 1, firstSeen := 0 }

def c3State : EngineState := { initialState with detectedPatterns := [((['a','b'], 2), c3Entry)] }

/-- C3 counterexample: the claim's removal condition uses last-seen age
≥ 30 s, but the source deletes only entries strictly older than the cutoff
(`pattern.lastSeen < Date.now() - 30000`).  At `now = 30000`, an entry last
seen at time 0 (age exactly 30 s) with frequency 2 satisfies the claimed
removal condition yet survives the pass (with its score decayed). -/
theorem C3_counterexample :
    ¬ ∀ (now : ℚ) (s : EngineState) (key : PatternKey) (e : DetectedPattern),
      (s.detectedPatterns.map Prod.fst).Nodup →
      lookupA s.detectedPatterns key = some e →
      (lookupA (scoreAndRankPatterns now s).detectedPatterns key = none ↔
        30000 ≤ now - e.lastSeen ∧ e.frequency < 3) := by
  intro h
  have h2 := (h 30000 c3State (['a','b'], 2) c3Entry
    (by simp [c3State, initialState])
    (by simp [c3State, initialState, lookupA])).mpr
    ⟨by norm_num [c3Entry], by norm_num [c3Entry]⟩
  rw [scoreAndRank_detected] at h2
  norm_num [c3State, initialState, c3Entry, keepEntry, decayEntry, lookupA,
    List.filter] at h2
  exact Option.noConfusion h2

/-- Witness for C3: at `now = 40000` the same entry (age 40 s, frequency 2)
is removed, and the theorem's removal criterion agrees. -/
theorem C3_witness :
    lookupA (scoreAndRankPatterns 40000 c3State).detectedPatterns (['a','b'], 2) = none ↔
      c3Entry.lastSeen < 40000 - 30000 ∧ c3Entry.frequency < 3 := by
  apply C3_eviction_iff 40000 c3State (['a','b'], 2) c3Entry
    (by simp [c3State, initialState])
    (by simp [c3State, initialState, lookupA])

/-! ## C5: persistence round trip -/

def c5Learned : LearnedPattern :=
  { pattern := ['a','b'], learnedAt := 0, strength := 5, category := .simple }

def c5State : EngineState := { initialState with learnedPatterns := [c5Learned] }

/-- C5 counterexample: the snapshot written by `saveUserPatterns` does not
contain the learned-pattern list, so restoring it into a fresh engine loses
the learned patterns: a state with one learned pattern round-trips to a state
with none. -/
theorem C5_counterexample :
    ¬ ∀ (s : EngineState) (now : ℚ),
      (loadUserPatterns initialState (saveUserPatterns s now)).detectedPatterns =
        s.detectedPatterns ∧
      (loadUserPatterns initialState (saveUserPatterns s now)).rhythmPatterns =
        s.rhythmPatterns ∧
      (loadUserPatterns initialState (saveUserPatterns s now)).learnedPatterns =
        s.learnedPatterns ∧
      (loadUserPatterns initialState (saveUserPatterns s now)).userStyle = s.userStyle := by
  intro h
  have h2 := (h c5State 0).2.2.1
  rw [show (loadUserPatterns initialState (saveUserPatterns c5State 0)).learnedPatterns =
      [] from rfl] at h2
  rw [show c5State.learnedPatterns = [c5Learned] from rfl] at h2
  exact List.noConfusion h2

/-- C5 amended: `deserialize(serialize(state))` into a fresh engine restores
the detected-pattern registry (same keys and entries, hence same scores and
frequencies), the hierarchical relations, the rhythm registry and the style
model exactly; the learned-pattern list is not captured by the snapshot and
comes back empty. -/
theorem C5_roundtrip (s : EngineState) (now : ℚ) :
    (loadUserPatterns initialState (saveUserPatterns s now)).detectedPatterns =
      s.detectedPatterns ∧
    (loadUserPatterns initialState (saveUserPatterns s now)).hierarchicalPatterns =
      s.hierarchicalPatterns ∧
    (loadUserPatterns initialState (saveUserPatterns s now)).rhythmPatterns =
      s.rhythmPatterns ∧
    (loadUserPatterns initialState (saveUserPatterns s now)).userStyle = s.userStyle ∧
    (loadUserPatterns initialState (saveUserPatterns s now)).learnedPatterns = [] :=
  ⟨rfl, rfl, rfl, rfl, rfl⟩

/-! ## C6: quality range -/

/-- C6 counterexample: for the empty sequence the source computes
`uniqueChars / pattern.length = 0/0 = NaN`, which propagates through the
multipliers and the clamp, so no quality value in [0.1, 2.0] is returned. -/
theorem C6_counterexample :
    ¬ ∀ (p : List Char), ∃ q, calculatePatternQuality p = some q ∧
      1/10 ≤ q ∧ q ≤ 2 := by
  intro h
  obtain ⟨q, hq, -, -⟩ := h []
  rw [show calculatePatternQuality [] = none from rfl] at hq
  exact Option.noConfusion hq

/-- C6 amended: for every non-empty input sequence the quality computation
returns a value, and that value lies within [0.1, 2.0]. -/
theorem C6_quality_range (p : List Char) (hp : p ≠ []) :
    ∃ q, calculatePatternQuality p = some q ∧ 1/10 ≤ q ∧ q ≤ 2 := by
  refine ⟨max (1/10) (min 2
    (diversityFactor p * lengthFactor p * coherenceFactor p * repetitionFactor p)),
    ?_, le_max_left _ _, max_le (by norm_num) (min_le_left _ _)⟩
  rw [calculatePatternQuality, if_neg (by simpa [List.length_eq_zero] using hp)]

theorem C6_witness :
    ∃ q, calculatePatternQuality ['a','b'] = some q ∧ 1/10 ≤ q ∧ q ≤ 2 :=
  C6_quality_range ['a','b'] (by decide)

/-! ## C7: internal-repetition penalty -/

/-- C7 counterexample: "abab" equals its leading 2-character unit repeated to
fill (sub-length 2 ≤ 4/2), yet `hasExcessiveInternalRepetition` returns
false, because sequences of length ≤ 4 are exempted before the sub-length
loop runs; the ×0.6 penalty is therefore not applied. -/
theorem C7_counterexample :
    ¬ ∀ (p : List Char),
      (∃ subLen, 2 ≤ subLen ∧ subLen ≤ p.length / 2 ∧
        p = repeatN (p.take subLen) (p.length / subLen) ++ p.take (p.length % subLen)) →
      hasExcessiveInternalRepetition p = true := by
  intro h
  have h2 := h ['a','b','a','b'] ⟨2, by norm_num, by norm_num, by decide⟩
  exact absurd h2 (by decide)

/-- C7 amended: for every sequence of length greater than 4 that equals its
leading sub-unit of some length in [2, length/2] repeated to fill with
remainder, `hasExcessiveInternalRepetition` holds and the quality computation
applies the ×0.6 multiplier; sequences of length at most 4 are exempt. -/
theorem C7_internal_repetition (p : List Char) (hlen : 4 < p.length)
    (h : ∃ subLen, 2 ≤ subLen ∧ subLen ≤ p.length / 2 ∧
      p = repeatN (p.take subLen) (p.length / subLen) ++ p.take (p.length % subLen)) :
    hasExcessiveInternalRepetition p = true ∧ repetitionFactor p = 3/5 := by
  have h1 : hasExcessiveInternalRepetition p = true := by
    rw [hasExcessiveInternalRepetition, if_neg (by omega)]
    obtain ⟨sl, hsl2, hslHalf, heq⟩ := h
    rw [List.any_eq_true]
    refine ⟨sl, ?_, by simpa using heq⟩
    rw [List.mem_range'_1]
    have : 2 ≤ p.length / 2 := by omega
    omega
  exact ⟨h1, by rw [repetitionFactor, if_pos h1]⟩

theorem C7_witness :
    hasExcessiveInternalRepetition ['a','b','a','b','a'] = true ∧
      repetitionFactor ['a','b','a','b','a'] = 3/5 :=
  C7_internal_repetition ['a','b','a','b','a'] (by norm_num)
    ⟨2, by norm_num, by norm_num, by decide⟩

/-! ## C8: rest priority -/

/-- C8: for every positive tempo and every gap strictly greater than twice
the quarter-note duration at that tempo, the interval classifier returns
`rest`, overriding the nearest-ratio computation (so a gap of exactly four
quarter notes, a perfect "whole" ratio match, is still a rest). -/
theorem C8_rest_priority (tempo intervalMs : ℚ) (htempo : 0 < tempo)
    (hgap : (60 / tempo * 1000) * 2 < intervalMs) :
    classifyInterval intervalMs tempo = NoteValue.rest := by
  rw [classifyInterval]
  simp only []
  rw [if_pos hgap]

/-- Witness for C8: at 120 BPM (quarter note 500 ms) a gap of 2000 ms — an
exact whole-note ratio match — classifies as rest. -/
theorem C8_witness : classifyInterval 2000 120 = NoteValue.rest :=
  C8_rest_priority 120 2000 (by norm_num) (by norm_num)

/-! ## C4: uniform 500 ms scenario -/

/-- One keystroke of the C4 scenario (the inter-key bookkeeping fields play
no role in rhythm analysis). -/
def mkC4 (c : Char) (t : ℚ) : Keystroke :=
  { char := c, timestamp := t, musicalNote := none, timeSinceLastKey := 0,
    beatPosition := 0 }

/-- Twenty keystrokes with uniform 500 ms spacing. -/
def c4Keys : List Keystroke :=
  [mkC4 'a' 0, mkC4 'b' 500, mkC4 'a' 1000, mkC4 'b' 1500, mkC4 'a' 2000,
   mkC4 'b' 2500, mkC4 'a' 3000, mkC4 'b' 3500, mkC4 'a' 4000, mkC4 'b' 4500,
   mkC4 'a' 5000, mkC4 'b' 5500, mkC4 'a' 6000, mkC4 'b' 6500, mkC4 'a' 7000,
   mkC4 'b' 7500, mkC4 'a' 8000, mkC4 'b' 8500, mkC4 'a' 9000, mkC4 'b' 9500]

/-- The engine state holding those 20 keystrokes at the initial running
tempo of 120 BPM, before a rhythm pass. -/
def c4Start : EngineState := { initialState with keystrokeHistory := c4Keys }

theorem c4_classify : classifyInterval 500 120 = NoteValue.quarter := by
  norm_num [classifyInterval, ratioTableOrder, ratioOf, abs_eq_max_neg, max_def]

theorem c4_last16 : lastN 16 c4Keys =
    [mkC4 'a' 2000, mkC4 'b' 2500, mkC4 'a' 3000, mkC4 'b' 3500, mkC4 'a' 4000,
     mkC4 'b' 4500, mkC4 'a' 5000, mkC4 'b' 5500, mkC4 'a' 6000, mkC4 'b' 6500,
     mkC4 'a' 7000, mkC4 'b' 7500, mkC4 'a' 8000, mkC4 'b' 8500, mkC4 'a' 9000,
     mkC4 'b' 9500] := by
  simp +decide [lastN, c4Keys]

theorem c4_intervals : diffs ((lastN 16 c4Keys).map (·.timestamp)) =
    List.replicate 15 (500:ℚ) := by
  rw [c4_last16]
  norm_num [diffs, mkC4, List.replicate]

theorem c4_spam : isRhythmSpam (lastN 16 c4Keys) = false := by
  rw [isRhythmSpam, c4_last16]
  norm_num [diffs, mkC4]

theorem c4_rhythm_pass :
    lookupA (analyzeRhythm 9500 c4Start).rhythmPatterns
      (List.replicate 15 NoteValue.quarter) =
    some { pattern := List.replicate 15 NoteValue.quarter, frequency := 1,
           averageInterval := 500, lastSeen := 9500 } := by
  have hh : c4Start.keystrokeHistory = c4Keys := rfl
  have ht : c4Start.userStyle.averageTempo = 120 := rfl
  have hr : c4Start.rhythmPatterns = [] := rfl
  have hlen : (c4Keys.length < 4) = False := by simp +decide [c4Keys]
  simp only [analyzeRhythm, hh, ht, hr, hlen, if_false, c4_spam, c4_intervals,
    Bool.false_eq_true, c4_classify, List.map_replicate, lookupA, Option.getD,
    updateTempoEstimation, setA]
  norm_num [List.sum_replicate]

/-- C4 counterexample: the claimed resulting rhythm signature — 19 "quarter"
categories with frequency 1 — does not exist in the rhythm registry after the
pass: `analyzeRhythm` examines only the last 16 keystrokes, so the signature
it records has 15 categories, and no 19-category signature is ever created
from this input. -/
theorem C4_counterexample :
    ¬ ∃ e, lookupA (analyzeRhythm 9500 c4Start).rhythmPatterns
        (List.replicate 19 NoteValue.quarter) = some e ∧ e.frequency = 1 := by
  rintro ⟨e, he, -⟩
  have hh : c4Start.keystrokeHistory = c4Keys := rfl
  have ht : c4Start.userStyle.averageTempo = 120 := rfl
  have hr : c4Start.rhythmPatterns = [] := rfl
  have hlen : (c4Keys.length < 4) = False := by simp +decide [c4Keys]
  rw [analyzeRhythm] at he
  simp only [hh, ht, hr, hlen, if_false, c4_spam, c4_intervals,
    Bool.false_eq_true, c4_classify, List.map_replicate, lookupA, Option.getD,
    updateTempoEstimation, setA] at he
  rw [if_neg (by decide)] at he
  exact Option.noConfusion he

/-- C4 amended: for 20 keystrokes with uniform 500 ms spacing at the initial
tempo of 120 BPM, one rhythm-analysis pass — which examines only the last 16
keystrokes — classifies each of the 15 inter-key intervals it considers as
"quarter", and records a rhythm signature of 15 "quarter" categories with
frequency 1 (window-mean interval 500 ms). -/
theorem C4_rhythm_scenario :
    ((diffs ((lastN 16 c4Start.keystrokeHistory).map (·.timestamp))).map
        fun t => classifyInterval t c4Start.userStyle.averageTempo) =
      List.replicate 15 NoteValue.quarter ∧
    lookupA (analyzeRhythm 9500 c4Start).rhythmPatterns
        (List.replicate 15 NoteValue.quarter) =
      some { pattern := List.replicate 15 NoteValue.quarter, frequency := 1,
             averageInterval := 500, lastSeen := 9500 } := by
  constructor
  · rw [show c4Start.keystrokeHistory = c4Keys from rfl,
      show c4Start.userStyle.averageTempo = 120 from rfl, c4_intervals]
    simp [c4_classify]
  · exact c4_rhythm_pass

/-! ## C9: scores stay positive after decay -/

/-- Every registry entry carries a strictly positive score. -/
def ScoresPositive (reg : Registry) : Prop := ∀ kv ∈ reg, 0 < kv.2.score

theorem findNested_detected (s : EngineState) :
    (findNestedPatterns s).detectedPatterns = s.detectedPatterns := rfl

theorem updateUserStyle_detected (s : EngineState) :
    (updateUserStyle s).detectedPatterns = s.detectedPatterns := rfl

theorem updateTempo_detected (intervals : List ℚ) (s : EngineState) :
    (updateTempoEstimation intervals s).detectedPatterns = s.detectedPatterns := rfl

theorem analyzeRhythm_detected (now : ℚ) (s : EngineState) :
    (analyzeRhythm now s).detectedPatterns = s.detectedPatterns := by
  simp only [analyzeRhythm]
  split
  · rfl
  · split
    · rfl
    · rfl

theorem scoresPositive_step (now tempo : ℚ) (seq : List Char) (L : ℕ)
    (ks : List Keystroke) (reg : Registry) (i : ℕ) (h : ScoresPositive reg) :
    ScoresPositive (findPatternsStep now tempo seq L ks reg i) := by
  rcases findPatternsStep_cases now tempo seq L ks reg i with
    heq | ⟨reps, q, prev, _, _, _, _, heq⟩
  · rw [heq]; exact h
  · rw [heq]
    intro kv hkv
    rcases mem_setA hkv with h2 | h2
    · exact h kv h2
    · rw [h2]
      exact updateEntry_score_pos now tempo _ L ks reps q prev

theorem scoresPositive_fPOL (now tempo : ℚ) (seq : List Char) (L : ℕ)
    (ks : List Keystroke) (reg : Registry) (h : ScoresPositive reg) :
    ScoresPositive (findPatternsOfLength now tempo seq L ks reg) := by
  rw [findPatternsOfLength]
  exact foldl_inv ScoresPositive _ _ reg h
    (fun reg2 i _ h2 => scoresPositive_step now tempo seq L ks reg2 i h2)

theorem scoresPositive_scoreAndRank (now : ℚ) (s : EngineState)
    (h : ScoresPositive s.detectedPatterns) :
    ScoresPositive (scoreAndRankPatterns now s).detectedPatterns := by
  rw [scoreAndRank_detected]
  intro kv hkv
  obtain ⟨kv0, hkv0, rfl⟩ := List.mem_map.mp hkv
  have h0 : 0 < kv0.2.score := h kv0 (List.mem_of_mem_filter hkv0)
  show 0 < kv0.2.score * max (1/10) (1 - (now - kv0.2.lastSeen) / 60000)
  exact mul_pos h0 (lt_of_lt_of_le (by norm_num) (le_max_left _ _))

theorem scoresPositive_analyzePatterns (now : ℚ) (s : EngineState)
    (h : ScoresPositive s.detectedPatterns) :
    ScoresPositive (analyzePatterns now s).detectedPatterns := by
  simp only [analyzePatterns]
  split
  · exact h
  · apply scoresPositive_scoreAndRank
    rw [findNested_detected]
    exact foldl_inv ScoresPositive _ _ _ h
      (fun reg L _ h2 =>
        scoresPositive_fPOL now s.userStyle.averageTempo _ L _ reg h2)

theorem scoresPositive_recordKeystroke (s : EngineState) (inp : KeyInput)
    (h : ScoresPositive s.detectedPatterns) :
    ScoresPositive (recordKeystroke s inp).detectedPatterns := by
  simp only [recordKeystroke]
  split <;> split
  all_goals
    first
      | exact h
      | (rw [updateUserStyle_detected, analyzeRhythm_detected]
         exact scoresPositive_analyzePatterns inp.now _ h)

/-- C9: in every engine state reachable by keystroke processing from the
empty initial state, every detected-pattern registry entry's score is
strictly positive after the per-pass decay multiplier
`max(0.1, 1 − secondsSinceLastSeen/60)` has been applied: the decay factor is
at least 0.1 and every freshly written score is at least
`(pre-penalty ≥ 5) × (penalty ≥ 0.1) > 0`. -/
theorem C9_scores_positive (s : EngineState) (h : Reachable s) :
    ∀ kv ∈ s.detectedPatterns, 0 < kv.2.score := by
  induction h with
  | init => intro kv hkv; simp [initialState] at hkv
  | step inp _ ih => exact scoresPositive_recordKeystroke _ inp ih

/-- The keystroke inputs of the C9 witness scenario: typing "a b a b" at
500 ms spacing. -/
def w9In (c : Char) (t : ℚ) : KeyInput :=
  { char := c, timestamp := t, musicalNote := none, beatPos := 0, now := t }

def w9K (c : Char) (t dt : ℚ) : Keystroke :=
  { char := c, timestamp := t, musicalNote := none, timeSinceLastKey := dt,
    beatPosition := 0 }

theorem w9_s3 :
    recordKeystroke (recordKeystroke (recordKeystroke initialState (w9In 'a' 0))
        (w9In 'b' 500)) (w9In 'a' 1000) =
      { initialState with
        keystrokeHistory := [w9K 'a' 0 0, w9K 'b' 500 500, w9K 'a' 1000 500] } := by
  simp +decide [recordKeystroke, analyzePatterns, analyzeRhythm, updateUserStyle,
    scoreAndRankPatterns, findNestedPatterns, findPatternsOfLength, keepEntry, decayEntry,
    stableSort, insertStable, bump, lookupA, setA, lastN, initialState, w9In, w9K,
    pairsAfter, List.range', minPatternLength, maxPatternLength, patternScoreThreshold]
  norm_num

/-- The registry entry produced by the fourth keystroke of the witness
scenario. -/
def w9Entry : DetectedPattern :=
  { pattern := ['a','b'], length := 2, frequency := 2, score := 63/20,
    lastSeen := 1500, rhythmInfo := some { rhythm := [NoteValue.quarter], confidence := 1 },
    qualityScore := 39/20, firstSeen := 1500 }

theorem w9_fpol :
    findPatternsOfLength 1500 120 ['a','b','a','b'] 2
      [{ char := 'a', timestamp := 0, musicalNote := none, timeSinceLastKey := 0,
         beatPosition := 0 },
       { char := 'b', timestamp := 500, musicalNote := none, timeSinceLastKey := 500,
         beatPosition := 0 },
       { char := 'a', timestamp := 1000, musicalNote := none, timeSinceLastKey := 500,
         beatPosition := 0 },
       { char := 'b', timestamp := 1500, musicalNote := none, timeSinceLastKey := 500,
         beatPosition := 0 }] [] =
    [((['a','b'], 2), w9Entry)] := by
  simp +decide [findPatternsOfLength, findPatternsStep, isSpamPattern, maxCharFreq,
    allSameChar, repeatN, distinctCount, countReps, calculatePatternQuality,
    diversityFactor, lengthFactor, coherenceFactor, repetitionFactor,
    hasMusicalCoherence, hasExcessiveInternalRepetition, rowPositions, keyboardRowList,
    lookupA, setA, updateEntry, updateEntryBase, newEntry, calculatePatternScore,
    calculateFreshnessPenalty, analyzePatternRhythm, occurrenceSlices, classifySlice,
    diffs, bump, stableSort, insertStable, List.range_succ, List.range_zero, w9Entry,
    w9K, c4_classify]
  norm_num
  simp only [c4_classify]
  simp +decide [bump, lookupA, setA, stableSort, insertStable]

theorem w9_s4_detected :
    (recordKeystroke { initialState with
        keystrokeHistory := [w9K 'a' 0 0, w9K 'b' 500 500, w9K 'a' 1000 500] }
      (w9In 'b' 1500)).detectedPatterns = [((['a','b'], 2), w9Entry)] := by
  simp +decide [recordKeystroke, updateUserStyle_detected, analyzeRhythm_detected,
    analyzePatterns, findNested_detected, scoreAndRank_detected, lastN,
    minPatternLength, maxPatternLength, List.range', w9In, w9K, initialState]
  norm_num
  rw [w9_fpol]
  norm_num [keepEntry, decayEntry, w9Entry, sup_eq_max, max_def, List.filter]

/-- Witness for C9: in the state reached by typing "a b a b" at 500 ms
spacing, the detected "ab" entry (which the registry then holds) has a
strictly positive score. -/
theorem C9_witness : 0 < w9Entry.score := by
  have hmem : ((['a','b'], 2), w9Entry) ∈
      (recordKeystroke (recordKeystroke (recordKeystroke (recordKeystroke
        initialState (w9In 'a' 0)) (w9In 'b' 500)) (w9In 'a' 1000))
        (w9In 'b' 1500)).detectedPatterns := by
    rw [w9_s3, w9_s4_detected]
    exact List.mem_cons_self _ _
  exact C9_scores_positive _
    (Reachable.step _ (Reachable.step _ (Reachable.step _ (Reachable.step _ Reachable.init))))
    _ hmem

/-! ## C10: lowercase normalisation -/

theorem char_ofNat_toNat {n : ℕ} (h : n.isValidChar) : (Char.ofNat n).toNat = n := by
  rw [Char.ofNat, dif_pos h]
  rfl

/-- Source `Char.toLower` is idempotent: lowering a basic-latin capital lands
outside the capital range, and every other character is fixed. -/
theorem toLower_toLower (c : Char) : c.toLower.toLower = c.toLower := by
  unfold Char.toLower
  by_cases h : c.toNat ≥ 65 ∧ c.toNat ≤ 90
  · rw [if_pos h]
    have hv : (c.toNat + 32).isValidChar := Or.inl (by omega)
    rw [char_ofNat_toNat hv]
    rw [if_neg (by omega)]
  · rw [if_neg h, if_neg h]

/-- The character is a fixed point of lowercasing. -/
def LoweredChar (c : Char) : Prop := c.toLower = c

def LoweredHistory (l : List Keystroke) : Prop := ∀ k ∈ l, LoweredChar k.char

def LoweredRegistry (reg : Registry) : Prop :=
  ∀ kv ∈ reg, ∀ c ∈ kv.2.pattern, LoweredChar c

theorem lowered_step (now tempo : ℚ) (seq : List Char) (L : ℕ)
    (ks : List Keystroke) (reg : Registry) (i : ℕ)
    (hseq : ∀ c ∈ seq, LoweredChar c) (hreg : LoweredRegistry reg) :
    LoweredRegistry (findPatternsStep now tempo seq L ks reg i) := by
  rcases findPatternsStep_cases now tempo seq L ks reg i with
    heq | ⟨reps, q, prev, _, _, hprev, _, heq⟩
  · rw [heq]; exact hreg
  · rw [heq]
    intro kv hkv
    rcases mem_setA hkv with h2 | h2
    · exact hreg kv h2
    · rw [h2]
      intro c hc
      rw [updateEntry_pattern] at hc
      cases prev with
      | some e =>
        exact hreg (⟨((seq.drop i).take L, L), e⟩) (lookupA_mem hprev) c hc
      | none =>
        apply hseq
        exact List.drop_subset i seq (List.take_subset L (seq.drop i) hc)

theorem lowered_fPOL (now tempo : ℚ) (seq : List Char) (L : ℕ)
    (ks : List Keystroke) (reg : Registry)
    (hseq : ∀ c ∈ seq, LoweredChar c) (hreg : LoweredRegistry reg) :
    LoweredRegistry (findPatternsOfLength now tempo seq L ks reg) := by
  rw [findPatternsOfLength]
  exact foldl_inv LoweredRegistry _ _ reg hreg
    (fun reg2 i _ h2 => lowered_step now tempo seq L ks reg2 i hseq h2)

theorem lowered_scoreAndRank (now : ℚ) (s : EngineState)
    (h : LoweredRegistry s.detectedPatterns) :
    LoweredRegistry (scoreAndRankPatterns now s).detectedPatterns := by
  rw [scoreAndRank_detected]
  intro kv hkv
  obtain ⟨kv0, hkv0, rfl⟩ := List.mem_map.mp hkv
  exact h kv0 (List.mem_of_mem_filter hkv0)

theorem lowered_analyzePatterns (now : ℚ) (s : EngineState)
    (hh : LoweredHistory s.keystrokeHistory) (hr : LoweredRegistry s.detectedPatterns) :
    LoweredRegistry (analyzePatterns now s).detectedPatterns := by
  simp only [analyzePatterns]
  split
  · exact hr
  · apply lowered_scoreAndRank
    rw [findNested_detected]
    apply foldl_inv LoweredRegistry _ _ _ hr
    intro reg L _ h2
    apply lowered_fPOL now s.userStyle.averageTempo _ L _ reg _ h2
    intro c hc
    obtain ⟨k, hk, rfl⟩ := List.mem_map.mp hc
    exact hh k (List.drop_subset _ _ hk)

theorem updateUserStyle_history (s : EngineState) :
    (updateUserStyle s).keystrokeHistory = s.keystrokeHistory := rfl

theorem analyzeRhythm_history (now : ℚ) (s : EngineState) :
    (analyzeRhythm now s).keystrokeHistory = s.keystrokeHistory := by
  simp only [analyzeRhythm]
  split
  · rfl
  · split
    · rfl
    · rfl

theorem analyzePatterns_history (now : ℚ) (s : EngineState) :
    (analyzePatterns now s).keystrokeHistory = s.keystrokeHistory := by
  simp only [analyzePatterns]
  split
  · rfl
  · rfl

theorem lowered_recordKeystroke (s : EngineState) (inp : KeyInput)
    (hh : LoweredHistory s.keystrokeHistory) (hr : LoweredRegistry s.detectedPatterns) :
    LoweredHistory (recordKeystroke s inp).keystrokeHistory ∧
      LoweredRegistry (recordKeystroke s inp).detectedPatterns := by
  have hbase : ∀ k0 : Keystroke, k0.char = inp.char.toLower →
      LoweredHistory (s.keystrokeHistory ++ [k0]) := by
    intro k0 hk0 k hk
    rcases List.mem_append.mp hk with h2 | h2
    · exact hh k h2
    · rw [List.mem_singleton.mp h2]
      show k0.char.toLower = k0.char
      rw [hk0]
      exact toLower_toLower inp.char
  have hanalysis : ∀ t : EngineState, LoweredHistory t.keystrokeHistory →
      LoweredRegistry t.detectedPatterns →
      LoweredHistory (updateUserStyle (analyzeRhythm inp.now
        (analyzePatterns inp.now t))).keystrokeHistory ∧
      LoweredRegistry (updateUserStyle (analyzeRhythm inp.now
        (analyzePatterns inp.now t))).detectedPatterns := by
    intro t hth htr
    constructor
    · rw [updateUserStyle_history, analyzeRhythm_history, analyzePatterns_history]
      exact hth
    · rw [updateUserStyle_detected, analyzeRhythm_detected]
      exact lowered_analyzePatterns inp.now t hth htr
  simp only [recordKeystroke]
  split
  · split
    · apply hanalysis
      · exact fun k hk => hbase _ rfl k (List.drop_subset _ _ hk)
      · exact hr
    · exact ⟨fun k hk => hbase _ rfl k (List.drop_subset _ _ hk), hr⟩
  · split
    · apply hanalysis
      · exact hbase _ rfl
      · exact hr
    · exact ⟨hbase _ rfl, hr⟩

/-- C10: `recordKeystroke` lowercases its character argument before storing
it, so in every reachable state each keystroke record's character is a fixed
point of lowercasing (contains no upper-case letter), and hence so is every
character of every detected pattern's content. -/
theorem C10_lowercase (s : EngineState) (h : Reachable s) :
    (∀ k ∈ s.keystrokeHistory, k.char.toLower = k.char) ∧
      (∀ kv ∈ s.detectedPatterns, ∀ c ∈ kv.2.pattern, c.toLower = c) := by
  induction h with
  | init =>
    constructor
    · intro k hk; simp [initialState] at hk
    · intro kv hkv; simp [initialState] at hkv
  | step inp _ ih => exact lowered_recordKeystroke _ inp ih.1 ih.2

/-- The call of the C10 witness: the character argument is the capital
letter 'A'. -/
def w10In : KeyInput :=
  { char := 'A', timestamp := 0, musicalNote := none, beatPos := 0, now := 0 }

/-- The keystroke that call stores. -/
def w10K : Keystroke :=
  { char := 'a', timestamp := 0, musicalNote := none, timeSinceLastKey := 0,
    beatPosition := 0 }

theorem w10_eval : (recordKeystroke initialState w10In).keystrokeHistory = [w10K] := by
  simp +decide [recordKeystroke, initialState, w10In, w10K, minPatternLength]

/-- Witness for C10: the keystroke stored for the capital-letter call 'A' is
a fixed point of lowercasing (it was stored as 'a'). -/
theorem C10_witness : w10K.char.toLower = w10K.char :=
  (C10_lowercase _ (Reachable.step w10In Reachable.init)).1 w10K
    (by rw [w10_eval]; exact List.mem_cons_self _ _)
